import Mathlib

/-!
Verification of the HDLC-style framing protocol and connection lifecycle
logic of `RNS/Interfaces/LocalInterface.py`.

Byte strings are modelled as `List Nat` (each element a byte value).
Python's `bytes.replace` is modelled for the two pattern shapes the source
uses: a one-byte pattern (`bytesReplace1`, used by `HDLC.escape`) and a
two-byte pattern (`bytesReplace2`, used by the decode substitutions in
`read_loop`).  Both scan left to right and replace non-overlapping
occurrences, exactly as `bytes.replace` does for these pattern lengths.
-/

/-- `HDLC.FLAG` from the source: the frame delimiter byte `0x7E`. -/
def HDLC.FLAG : Nat := 0x7E

/-- `HDLC.ESC` from the source: the escape byte `0x7D`. -/
def HDLC.ESC : Nat := 0x7D

/-- `HDLC.ESC_MASK` from the source: the XOR mask `0x20`. -/
def HDLC.ESC_MASK : Nat := 0x20

/-- Python `bytes.replace` for a single-byte pattern `a`: every occurrence of
the byte `a` is replaced by `rep`, scanning left to right. -/
def bytesReplace1 (a : Nat) (rep : List Nat) : List Nat → List Nat
  | [] => []
  | b :: rest => if b = a then rep ++ bytesReplace1 a rep rest
                 else b :: bytesReplace1 a rep rest

/-- Python `bytes.replace` for a two-byte pattern `[a1, a2]`: every
non-overlapping occurrence of the pair, scanning left to right, is replaced
by `rep`. -/
def bytesReplace2 (a1 a2 : Nat) (rep : List Nat) : List Nat → List Nat
  | [] => []
  | [b] => [b]
  | b1 :: b2 :: rest =>
    if b1 = a1 ∧ b2 = a2 then rep ++ bytesReplace2 a1 a2 rep rest
    else b1 :: bytesReplace2 a1 a2 rep (b2 :: rest)

/-- `HDLC.escape` from the source: first replace `0x7D` with `0x7D 0x5D`,
then replace `0x7E` with `0x7D 0x5E`. -/
def HDLC.escape (data : List Nat) : List Nat :=
  bytesReplace1 HDLC.FLAG [HDLC.ESC, HDLC.FLAG ^^^ HDLC.ESC_MASK]
    (bytesReplace1 HDLC.ESC [HDLC.ESC, HDLC.ESC ^^^ HDLC.ESC_MASK] data)

/-- The two decode substitutions applied to the bytes between two delimiters
in `read_loop`: replace the pair `0x7D 0x5E` with `0x7E`, then the pair
`0x7D 0x5D` with `0x7D`. -/
def hdlcDecode (raw : List Nat) : List Nat :=
  bytesReplace2 HDLC.ESC (HDLC.ESC ^^^ HDLC.ESC_MASK) [HDLC.ESC]
    (bytesReplace2 HDLC.ESC (HDLC.FLAG ^^^ HDLC.ESC_MASK) [HDLC.FLAG] raw)

/-- The on-wire encoding built in `process_outgoing`:
`bytes([HDLC.FLAG]) + HDLC.escape(data) + bytes([HDLC.FLAG])`. -/
def hdlcEncode (data : List Nat) : List Nat :=
  HDLC.FLAG :: (HDLC.escape data ++ [HDLC.FLAG])

/-- The image of one input byte under the two escape substitutions. -/
def escByte (b : Nat) : List Nat :=
  if b = HDLC.ESC then [HDLC.ESC, HDLC.ESC ^^^ HDLC.ESC_MASK]
  else if b = HDLC.FLAG then [HDLC.ESC, HDLC.FLAG ^^^ HDLC.ESC_MASK]
  else [b]

lemma bytesReplace1_append (a : Nat) (rep : List Nat) (x y : List Nat) :
    bytesReplace1 a rep (x ++ y) =
      bytesReplace1 a rep x ++ bytesReplace1 a rep y := by
  induction x with
  | nil => simp [bytesReplace1]
  | cons b rest ih =>
    by_cases hb : b = a <;> simp [bytesReplace1, hb, ih]

lemma escape_nil : HDLC.escape [] = [] := rfl

lemma escape_cons (b : Nat) (p : List Nat) :
    HDLC.escape (b :: p) = escByte b ++ HDLC.escape p := by
  unfold HDLC.escape escByte
  by_cases h1 : b = HDLC.ESC
  · subst h1
    rw [show bytesReplace1 HDLC.ESC [HDLC.ESC, HDLC.ESC ^^^ HDLC.ESC_MASK]
          (HDLC.ESC :: p) =
        [HDLC.ESC, HDLC.ESC ^^^ HDLC.ESC_MASK] ++
          bytesReplace1 HDLC.ESC [HDLC.ESC, HDLC.ESC ^^^ HDLC.ESC_MASK] p by
      simp [bytesReplace1]]
    rw [bytesReplace1_append]
    simp [bytesReplace1, HDLC.ESC, HDLC.FLAG, HDLC.ESC_MASK]
  · by_cases h2 : b = HDLC.FLAG
    · subst h2
      rw [show bytesReplace1 HDLC.ESC [HDLC.ESC, HDLC.ESC ^^^ HDLC.ESC_MASK]
            (HDLC.FLAG :: p) =
          [HDLC.FLAG] ++
            bytesReplace1 HDLC.ESC [HDLC.ESC, HDLC.ESC ^^^ HDLC.ESC_MASK] p by
        simp [bytesReplace1, HDLC.ESC, HDLC.FLAG]]
      rw [bytesReplace1_append]
      simp [bytesReplace1, HDLC.ESC, HDLC.FLAG, HDLC.ESC_MASK]
    · rw [show bytesReplace1 HDLC.ESC [HDLC.ESC, HDLC.ESC ^^^ HDLC.ESC_MASK]
            (b :: p) =
          [b] ++ bytesReplace1 HDLC.ESC [HDLC.ESC, HDLC.ESC ^^^ HDLC.ESC_MASK] p by
        simp [bytesReplace1, h1]]
      rw [bytesReplace1_append]
      simp [bytesReplace1, h1, h2]

lemma escByte_no_flag (b : Nat) : ∀ x ∈ escByte b, x ≠ HDLC.FLAG := by
  intro x hx hflag
  subst hflag
  unfold escByte at hx
  split at hx
  · exact absurd hx (by decide)
  · split at hx
    · exact absurd hx (by decide)
    · rename_i h1 h2
      exact h2 (List.mem_singleton.mp hx).symm

/-- No byte of `HDLC.escape p` is the delimiter `0x7E`. -/
lemma escape_no_flag (p : List Nat) : ∀ b ∈ HDLC.escape p, b ≠ HDLC.FLAG := by
  induction p with
  | nil => simp [escape_nil]
  | cons b p ih =>
    rw [escape_cons]
    intro x hx
    rcases List.mem_append.mp hx with hx | hx
    · exact escByte_no_flag b x hx
    · exact ih x hx

lemma esc_xor_mask : HDLC.ESC ^^^ HDLC.ESC_MASK = 93 := by decide

lemma flag_xor_mask : HDLC.FLAG ^^^ HDLC.ESC_MASK = 94 := by decide

lemma replace2_cons_ne (a1 a2 x : Nat) (rep l : List Nat) (hx : x ≠ a1) :
    bytesReplace2 a1 a2 rep (x :: l) = x :: bytesReplace2 a1 a2 rep l := by
  cases l with
  | nil => simp [bytesReplace2]
  | cons c rest => simp [bytesReplace2, hx]

/-- The first decode substitution undoes the delimiter escaping, leaving the
escape-byte escaping in place. -/
lemma decode1_escape (p : List Nat) :
    bytesReplace2 HDLC.ESC (HDLC.FLAG ^^^ HDLC.ESC_MASK) [HDLC.FLAG]
        (HDLC.escape p)
      = bytesReplace1 HDLC.ESC [HDLC.ESC, HDLC.ESC ^^^ HDLC.ESC_MASK] p := by
  induction p with
  | nil => simp [escape_nil, bytesReplace2, bytesReplace1]
  | cons b p ih =>
    rw [escape_cons]
    by_cases h1 : b = HDLC.ESC
    · subst h1
      rw [show escByte HDLC.ESC = [HDLC.ESC, HDLC.ESC ^^^ HDLC.ESC_MASK] by
        simp [escByte]]
      simp only [List.cons_append, List.nil_append]
      rw [show bytesReplace2 HDLC.ESC (HDLC.FLAG ^^^ HDLC.ESC_MASK) [HDLC.FLAG]
            (HDLC.ESC :: ((HDLC.ESC ^^^ HDLC.ESC_MASK) :: HDLC.escape p))
          = HDLC.ESC :: bytesReplace2 HDLC.ESC (HDLC.FLAG ^^^ HDLC.ESC_MASK)
              [HDLC.FLAG] ((HDLC.ESC ^^^ HDLC.ESC_MASK) :: HDLC.escape p) by
        simp [bytesReplace2, esc_xor_mask, flag_xor_mask]]
      rw [replace2_cons_ne _ _ _ _ _ (by decide)]
      rw [ih]
      simp [bytesReplace1]
    · by_cases h2 : b = HDLC.FLAG
      · subst h2
        rw [show escByte HDLC.FLAG = [HDLC.ESC, HDLC.FLAG ^^^ HDLC.ESC_MASK] by
          simp [escByte, HDLC.ESC, HDLC.FLAG]]
        simp only [List.cons_append, List.nil_append]
        rw [show bytesReplace2 HDLC.ESC (HDLC.FLAG ^^^ HDLC.ESC_MASK)
              [HDLC.FLAG]
              (HDLC.ESC :: ((HDLC.FLAG ^^^ HDLC.ESC_MASK) :: HDLC.escape p))
            = [HDLC.FLAG] ++ bytesReplace2 HDLC.ESC (HDLC.FLAG ^^^ HDLC.ESC_MASK)
                [HDLC.FLAG] (HDLC.escape p) by
          simp [bytesReplace2]]
        rw [ih]
        simp [bytesReplace1, HDLC.ESC, HDLC.FLAG]
      · rw [show escByte b = [b] by simp [escByte, h1, h2]]
        rw [show ([b] ++ HDLC.escape p : List Nat) = b :: HDLC.escape p from rfl]
        rw [replace2_cons_ne _ _ _ _ _ h1, ih]
        simp [bytesReplace1, h1]

/-- The second decode substitution undoes the escape-byte escaping. -/
lemma decode2_unescape (p : List Nat) :
    bytesReplace2 HDLC.ESC (HDLC.ESC ^^^ HDLC.ESC_MASK) [HDLC.ESC]
        (bytesReplace1 HDLC.ESC [HDLC.ESC, HDLC.ESC ^^^ HDLC.ESC_MASK] p)
      = p := by
  induction p with
  | nil => simp [bytesReplace1, bytesReplace2]
  | cons b p ih =>
    by_cases h1 : b = HDLC.ESC
    · subst h1
      rw [show bytesReplace1 HDLC.ESC [HDLC.ESC, HDLC.ESC ^^^ HDLC.ESC_MASK]
            (HDLC.ESC :: p)
          = HDLC.ESC :: ((HDLC.ESC ^^^ HDLC.ESC_MASK) ::
              bytesReplace1 HDLC.ESC [HDLC.ESC, HDLC.ESC ^^^ HDLC.ESC_MASK] p) by
        simp [bytesReplace1]]
      rw [show bytesReplace2 HDLC.ESC (HDLC.ESC ^^^ HDLC.ESC_MASK) [HDLC.ESC]
            (HDLC.ESC :: ((HDLC.ESC ^^^ HDLC.ESC_MASK) ::
              bytesReplace1 HDLC.ESC [HDLC.ESC, HDLC.ESC ^^^ HDLC.ESC_MASK] p))
          = [HDLC.ESC] ++ bytesReplace2 HDLC.ESC (HDLC.ESC ^^^ HDLC.ESC_MASK)
              [HDLC.ESC]
              (bytesReplace1 HDLC.ESC [HDLC.ESC, HDLC.ESC ^^^ HDLC.ESC_MASK] p) by
        simp [bytesReplace2]]
      rw [ih]
      rfl
    · rw [show bytesReplace1 HDLC.ESC [HDLC.ESC, HDLC.ESC ^^^ HDLC.ESC_MASK]
            (b :: p)
          = b :: bytesReplace1 HDLC.ESC [HDLC.ESC, HDLC.ESC ^^^ HDLC.ESC_MASK] p by
        simp [bytesReplace1, h1]]
      rw [replace2_cons_ne _ _ _ _ _ h1, ih]

/-- Round-trip of the framing codec: the decode substitutions of `read_loop`
invert `HDLC.escape`. -/
lemma decode_escape (p : List Nat) : hdlcDecode (HDLC.escape p) = p := by
  unfold hdlcDecode
  rw [decode1_escape]
  exact decode2_unescape p

/-- Claim C1: for every byte sequence `p`, applying the decode substitutions
(replace `0x7D 0x5E` with `0x7E`, then `0x7D 0x5D` with `0x7D`) to
`HDLC.escape p` yields `p` again, and the encoded output
`FLAG + escape(p) + FLAG` contains no unescaped delimiter byte `0x7E` except
its two end bytes. -/
theorem c1_escape_roundtrip_and_delimiters (p : List Nat) :
    hdlcDecode (HDLC.escape p) = p ∧
    hdlcEncode p = HDLC.FLAG :: (HDLC.escape p ++ [HDLC.FLAG]) ∧
    ∀ b ∈ HDLC.escape p, b ≠ HDLC.FLAG :=
  ⟨decode_escape p, rfl, escape_no_flag p⟩

theorem c1_escape_roundtrip_witness :
    hdlcDecode (HDLC.escape [126, 125, 7]) = [126, 125, 7] ∧
    (125 : Nat) ≠ HDLC.FLAG :=
  ⟨(c1_escape_roundtrip_and_delimiters [126, 125, 7]).1,
   (c1_escape_roundtrip_and_delimiters [126, 125, 7]).2.2 125 (by decide)⟩

/-- Helper for `bFind`: index of the first occurrence of `t` in `l`, counting
from `i`. -/
def bFindAux (t : Nat) : List Nat → Nat → Option Nat
  | [], _ => none
  | b :: rest, i => if b = t then some i else bFindAux t rest (i + 1)

/-- Python `bytes.find(t, s)` on `buf`: the index of the first occurrence of
byte `t` at position `s` or later (`none` models the `-1` return). -/
def bFind (buf : List Nat) (t s : Nat) : Option Nat :=
  bFindAux t (buf.drop s) s

lemma bFindAux_bounds (t : Nat) :
    ∀ (l : List Nat) (i j : Nat), bFindAux t l i = some j →
      i ≤ j ∧ j < i + l.length := by
  intro l
  induction l with
  | nil => intro i j h; simp [bFindAux] at h
  | cons b rest ih =>
    intro i j h
    unfold bFindAux at h
    by_cases hb : b = t
    · simp [hb] at h
      simp only [List.length_cons]
      omega
    · simp [hb] at h
      have := ih (i + 1) j h
      simp only [List.length_cons]
      omega

lemma bFind_bounds (buf : List Nat) (t s j : Nat) (h : bFind buf t s = some j) :
    s ≤ j ∧ j < buf.length := by
  have hb := bFindAux_bounds t (buf.drop s) s j h
  rw [List.length_drop] at hb
  omega

lemma bFindAux_append_some (t : Nat) (d : List Nat) :
    ∀ (l : List Nat) (i j : Nat), bFindAux t l i = some j →
      bFindAux t (l ++ d) i = some j := by
  intro l
  induction l with
  | nil => intro i j h; simp [bFindAux] at h
  | cons b rest ih =>
    intro i j h
    unfold bFindAux at h ⊢
    by_cases hb : b = t
    · simpa [hb] using h
    · simp [hb] at h ⊢
      exact ih (i + 1) j h

/-- A successful `find` is stable under appending more data to the buffer. -/
lemma bFind_append (buf d : List Nat) (t s j : Nat)
    (h : bFind buf t s = some j) : bFind (buf ++ d) t s = some j := by
  have hs : s ≤ buf.length := by
    have := bFind_bounds buf t s j h
    omega
  unfold bFind at h ⊢
  rw [List.drop_append_of_le_length hs]
  exact bFindAux_append_some t d (buf.drop s) s j h

lemma bFindAux_none_of_no_occ (t : Nat) :
    ∀ (l : List Nat), (∀ b ∈ l, b ≠ t) → ∀ i, bFindAux t l i = none := by
  intro l
  induction l with
  | nil => intro _ i; simp [bFindAux]
  | cons b rest ih =>
    intro h i
    unfold bFindAux
    have hb : b ≠ t := h b (by simp)
    simp [hb]
    exact ih (fun x hx => h x (by simp [hx])) (i + 1)

lemma bFindAux_flagfree_append (t : Nat) (r : List Nat) :
    ∀ (e : List Nat), (∀ b ∈ e, b ≠ t) → ∀ i,
      bFindAux t (e ++ t :: r) i = some (i + e.length) := by
  intro e
  induction e with
  | nil => intro _ i; simp [bFindAux]
  | cons b rest ih =>
    intro h i
    have hb : b ≠ t := h b (by simp)
    simp only [List.cons_append]
    unfold bFindAux
    simp [hb]
    rw [ih (fun x hx => h x (by simp [hx])) (i + 1)]
    congr 1
    omega

lemma bFind_cons_self (t : Nat) (l : List Nat) :
    bFind (t :: l) t 0 = some 0 := by
  simp [bFind, bFindAux]

lemma bFind_tail_flagfree_hit (e r : List Nat) (t : Nat)
    (he : ∀ b ∈ e, b ≠ t) :
    bFind (t :: (e ++ t :: r)) t 1 = some (e.length + 1) := by
  unfold bFind
  rw [List.drop_succ_cons, List.drop_zero]
  rw [bFindAux_flagfree_append t r e he 1]
  congr 1
  omega

lemma bFind_tail_flagfree_miss (e : List Nat) (t : Nat)
    (he : ∀ b ∈ e, b ≠ t) :
    bFind (t :: e) t 1 = none := by
  unfold bFind
  rw [List.drop_succ_cons, List.drop_zero]
  exact bFindAux_none_of_no_occ t e he 1

lemma bFind_none_of_no_occ (l : List Nat) (t : Nat) (hl : ∀ b ∈ l, b ≠ t) :
    bFind l t 0 = none := by
  unfold bFind
  rw [List.drop_zero]
  exact bFindAux_none_of_no_occ t l hl 0

/-- One pass of the scan inside `read_loop`'s inner `while` loop: locate
`frame_start` (first `FLAG`), then `frame_end` (next `FLAG` after it); on
success return the decoded frame `frame_buffer[frame_start+1:frame_end]`
together with the new buffer `frame_buffer[frame_end:]`. -/
def deframeScan (buf : List Nat) : Option (List Nat × List Nat) :=
  match bFind buf HDLC.FLAG 0 with
  | none => none
  | some frame_start =>
    match bFind buf HDLC.FLAG (frame_start + 1) with
    | none => none
    | some frame_end =>
      some (hdlcDecode ((buf.take frame_end).drop (frame_start + 1)),
            buf.drop frame_end)

lemma deframeScan_rest_length (buf : List Nat) (fr : List Nat × List Nat)
    (h : deframeScan buf = some fr) : fr.2.length < buf.length := by
  obtain ⟨f, rest⟩ := fr
  unfold deframeScan at h
  cases h1 : bFind buf HDLC.FLAG 0 with
  | none => simp [h1] at h
  | some i =>
    cases h2 : bFind buf HDLC.FLAG (i + 1) with
    | none => simp [h1, h2] at h
    | some j =>
      simp [h1, h2] at h
      have hb := bFind_bounds buf HDLC.FLAG (i + 1) j h2
      have hr : rest = buf.drop j := h.2.symm
      subst hr
      simp only [List.length_drop]
      omega

lemma deframeScan_append (buf d : List Nat) (fr : List Nat × List Nat)
    (h : deframeScan buf = some fr) :
    deframeScan (buf ++ d) = some (fr.1, fr.2 ++ d) := by
  obtain ⟨f, rest⟩ := fr
  unfold deframeScan at h ⊢
  cases h1 : bFind buf HDLC.FLAG 0 with
  | none => simp [h1] at h
  | some i =>
    cases h2 : bFind buf HDLC.FLAG (i + 1) with
    | none => simp [h1, h2] at h
    | some j =>
      simp [h1, h2] at h
      have hb := bFind_bounds buf HDLC.FLAG (i + 1) j h2
      have g1 := bFind_append buf d HDLC.FLAG 0 i h1
      have g2 := bFind_append buf d HDLC.FLAG (i + 1) j h2
      have hj : j ≤ buf.length := by omega
      simp [g1, g2, List.take_append_of_le_length hj,
            List.drop_append_of_le_length hj]
      exact ⟨h.1, by rw [h.2]⟩

/-- The deframing loop of `read_loop`: repeatedly extract complete frames
from the buffer; each decoded frame longer than the minimum header size `m`
(`RNS.Reticulum.HEADER_MINSIZE`, external to this file) is delivered to
`process_incoming`, shorter ones are dropped.  Returns the final buffer and
the delivered frames in order. -/
def hdlcDeframe (m : Nat) (buf : List Nat) : List Nat × List (List Nat) :=
  match hs : deframeScan buf with
  | none => (buf, [])
  | some fr =>
    let rest := hdlcDeframe m fr.2
    if fr.1.length > m then (rest.1, fr.1 :: rest.2) else rest
termination_by buf.length
decreasing_by exact deframeScan_rest_length _ _ hs

lemma hdlcDeframe_eq_none (m : Nat) (buf : List Nat)
    (h : deframeScan buf = none) : hdlcDeframe m buf = (buf, []) := by
  unfold hdlcDeframe
  split
  · rfl
  · rename_i fr hfr
    rw [h] at hfr
    exact absurd hfr (by simp)

lemma hdlcDeframe_eq_some (m : Nat) (buf : List Nat) (fr : List Nat × List Nat)
    (h : deframeScan buf = some fr) :
    hdlcDeframe m buf =
      if fr.1.length > m then
        ((hdlcDeframe m fr.2).1, fr.1 :: (hdlcDeframe m fr.2).2)
      else hdlcDeframe m fr.2 := by
  conv_lhs => rw [hdlcDeframe]
  split
  · rename_i hnone
    rw [h] at hnone
    exact absurd hnone (by simp)
  · rename_i fr2 hfr2
    rw [h] at hfr2
    have hfr : fr2 = fr := by
      have := hfr2.symm
      simpa using this
    rw [hfr]

lemma deframeScan_frame (e r : List Nat) (he : ∀ b ∈ e, b ≠ HDLC.FLAG) :
    deframeScan (HDLC.FLAG :: (e ++ HDLC.FLAG :: r))
      = some (hdlcDecode e, HDLC.FLAG :: r) := by
  have g1 : bFind (HDLC.FLAG :: (e ++ HDLC.FLAG :: r)) HDLC.FLAG 0 = some 0 :=
    bFind_cons_self _ _
  have g2 : bFind (HDLC.FLAG :: (e ++ HDLC.FLAG :: r)) HDLC.FLAG 1
      = some (e.length + 1) := bFind_tail_flagfree_hit e r HDLC.FLAG he
  simp only [deframeScan, g1, g2]
  rw [List.take_succ_cons, List.take_left]
  simp [List.drop_succ_cons, List.drop_left]

lemma deframeScan_no_second (e : List Nat) (he : ∀ b ∈ e, b ≠ HDLC.FLAG) :
    deframeScan (HDLC.FLAG :: e) = none := by
  have g1 : bFind (HDLC.FLAG :: e) HDLC.FLAG 0 = some 0 := bFind_cons_self _ _
  have g2 : bFind (HDLC.FLAG :: e) HDLC.FLAG 1 = none :=
    bFind_tail_flagfree_miss e HDLC.FLAG he
  simp only [deframeScan, g1, g2]

lemma deframeScan_no_flag (l : List Nat) (hl : ∀ b ∈ l, b ≠ HDLC.FLAG) :
    deframeScan l = none := by
  simp only [deframeScan, bFind_none_of_no_occ l HDLC.FLAG hl]

lemma hdlcDeframe_no_flag (m : Nat) (l : List Nat)
    (hl : ∀ b ∈ l, b ≠ HDLC.FLAG) : hdlcDeframe m l = (l, []) :=
  hdlcDeframe_eq_none m l (deframeScan_no_flag l hl)

/-- A buffer holding an opening delimiter and a partial escaped frame (no
closing delimiter yet) yields nothing and is retained. -/
lemma hdlcDeframe_openFrame (m : Nat) (e : List Nat)
    (he : ∀ b ∈ e, b ≠ HDLC.FLAG) :
    hdlcDeframe m (HDLC.FLAG :: e) = (HDLC.FLAG :: e, []) :=
  hdlcDeframe_eq_none m _ (deframeScan_no_second e he)

/-- One complete frame at the head of the buffer: it is decoded, delivered
only if longer than the minimum size, and the buffer is cut to start at the
closing delimiter. -/
lemma hdlcDeframe_frame_step (m : Nat) (e r : List Nat)
    (he : ∀ b ∈ e, b ≠ HDLC.FLAG) :
    hdlcDeframe m (HDLC.FLAG :: (e ++ HDLC.FLAG :: r))
      = if (hdlcDecode e).length > m then
          ((hdlcDeframe m (HDLC.FLAG :: r)).1,
           hdlcDecode e :: (hdlcDeframe m (HDLC.FLAG :: r)).2)
        else hdlcDeframe m (HDLC.FLAG :: r) := by
  have := hdlcDeframe_eq_some m (HDLC.FLAG :: (e ++ HDLC.FLAG :: r))
    (hdlcDecode e, HDLC.FLAG :: r) (deframeScan_frame e r he)
  simpa using this

lemma hdlcDeframe_aux_quiescent (m : Nat) :
    ∀ (n : Nat) (buf : List Nat), buf.length ≤ n →
      hdlcDeframe m (hdlcDeframe m buf).1 = ((hdlcDeframe m buf).1, []) := by
  intro n
  induction n with
  | zero =>
    intro buf hb
    have hnil : buf = [] := List.eq_nil_of_length_eq_zero (by omega)
    subst hnil
    rw [hdlcDeframe_no_flag m [] (by simp)]
    exact hdlcDeframe_no_flag m [] (by simp)
  | succ n ih =>
    intro buf hb
    cases hscan : deframeScan buf with
    | none =>
      rw [hdlcDeframe_eq_none m buf hscan]
      exact hdlcDeframe_eq_none m buf hscan
    | some fr =>
      have hlen := deframeScan_rest_length buf fr hscan
      rw [hdlcDeframe_eq_some m buf fr hscan]
      by_cases hc : fr.1.length > m
      · simp only [hc, if_true]
        exact ih fr.2 (by omega)
      · simp only [hc, if_false]
        exact ih fr.2 (by omega)

/-- The output buffer of the deframer is quiescent: running the deframer on
it again extracts nothing more. -/
lemma hdlcDeframe_quiescent (m : Nat) (buf : List Nat) :
    hdlcDeframe m (hdlcDeframe m buf).1 = ((hdlcDeframe m buf).1, []) :=
  hdlcDeframe_aux_quiescent m buf.length buf le_rfl

lemma hdlcDeframe_append_aux (m : Nat) :
    ∀ (n : Nat) (b : List Nat), b.length ≤ n → ∀ (d : List Nat),
      hdlcDeframe m (b ++ d)
        = ((hdlcDeframe m ((hdlcDeframe m b).1 ++ d)).1,
           (hdlcDeframe m b).2
             ++ (hdlcDeframe m ((hdlcDeframe m b).1 ++ d)).2) := by
  intro n
  induction n with
  | zero =>
    intro b hb d
    have hnil : b = [] := List.eq_nil_of_length_eq_zero (by omega)
    subst hnil
    rw [hdlcDeframe_no_flag m [] (by simp)]
    simp
  | succ n ih =>
    intro b hb d
    cases hscan : deframeScan b with
    | none =>
      rw [hdlcDeframe_eq_none m b hscan]
      simp
    | some fr =>
      have hlen := deframeScan_rest_length b fr hscan
      have hscan2 := deframeScan_append b d fr hscan
      rw [hdlcDeframe_eq_some m b fr hscan,
          hdlcDeframe_eq_some m (b ++ d) (fr.1, fr.2 ++ d) hscan2]
      have hih := ih fr.2 (by omega) d
      by_cases hc : fr.1.length > m
      · simp only [hc, if_true]
        rw [hih]
        simp
      · simp only [hc, if_false]
        exact hih

/-- Feeding the deframer `b ++ d` is the same as feeding `b`, keeping the
leftover buffer, and then feeding `d`: the deframer is insensitive to how
the stream is chunked. -/
lemma hdlcDeframe_append (m : Nat) (b d : List Nat) :
    hdlcDeframe m (b ++ d)
      = ((hdlcDeframe m ((hdlcDeframe m b).1 ++ d)).1,
         (hdlcDeframe m b).2
           ++ (hdlcDeframe m ((hdlcDeframe m b).1 ++ d)).2) :=
  hdlcDeframe_append_aux m b.length b le_rfl d

/-- A sequence of `recv` chunks fed through the deframing loop of
`read_loop`, threading the retained buffer: returns the final buffer and all
frames delivered to `process_incoming`, in order. -/
def feedChunks (m : Nat) : List Nat → List (List Nat) → List Nat × List (List Nat)
  | buf, [] => (buf, [])
  | buf, c :: cs =>
    let r := hdlcDeframe m (buf ++ c)
    let r2 := feedChunks m r.1 cs
    (r2.1, r.2 ++ r2.2)

/-- Chunking does not matter: starting from a quiescent buffer, feeding any
chunk sequence equals deframing the concatenation of buffer and chunks. -/
lemma feedChunks_flatten (m : Nat) :
    ∀ (cs : List (List Nat)) (buf : List Nat),
      hdlcDeframe m buf = (buf, []) →
      feedChunks m buf cs = hdlcDeframe m (buf ++ cs.flatten) := by
  intro cs
  induction cs with
  | nil =>
    intro buf hq
    simp only [feedChunks, List.flatten_nil, List.append_nil]
    exact hq.symm
  | cons c cs ih =>
    intro buf hq
    simp only [feedChunks, List.flatten_cons]
    have hq2 : hdlcDeframe m (hdlcDeframe m (buf ++ c)).1
        = ((hdlcDeframe m (buf ++ c)).1, []) := hdlcDeframe_quiescent m (buf ++ c)
    rw [ih (hdlcDeframe m (buf ++ c)).1 hq2]
    rw [show buf ++ (c ++ cs.flatten) = (buf ++ c) ++ cs.flatten by
      simp [List.append_assoc]]
    rw [hdlcDeframe_append m (buf ++ c) cs.flatten]

/-- Deframing one encoded frame: the frame is delivered iff its decoded
length exceeds the minimum size, and the closing delimiter stays in the
buffer. -/
lemma hdlcDeframe_encode (m : Nat) (f : List Nat) :
    hdlcDeframe m (hdlcEncode f)
      = if f.length > m then ([HDLC.FLAG], [f]) else ([HDLC.FLAG], []) := by
  unfold hdlcEncode
  have hstep := hdlcDeframe_frame_step m (HDLC.escape f) [] (escape_no_flag f)
  rw [decode_escape] at hstep
  rw [hstep, hdlcDeframe_openFrame m [] (by simp)]

lemma hdlcDeframe_encode_pair (m : Nat) (f1 f2 : List Nat)
    (h1 : f1.length > m) (h2 : f2.length > m) :
    hdlcDeframe m (hdlcEncode f1 ++ hdlcEncode f2) = ([HDLC.FLAG], [f1, f2]) := by
  have hshape : hdlcEncode f1 ++ hdlcEncode f2
      = HDLC.FLAG :: (HDLC.escape f1 ++ HDLC.FLAG ::
          (HDLC.FLAG :: (HDLC.escape f2 ++ HDLC.FLAG :: []))) := by
    simp [hdlcEncode]
  rw [hshape]
  rw [hdlcDeframe_frame_step m (HDLC.escape f1) _ (escape_no_flag f1)]
  rw [decode_escape]
  have hstep2 := hdlcDeframe_frame_step m []
    (HDLC.escape f2 ++ HDLC.FLAG :: []) (by simp)
  simp only [List.nil_append] at hstep2
  rw [show hdlcDecode [] = [] from rfl] at hstep2
  simp only [List.length_nil] at hstep2
  rw [if_neg (by omega)] at hstep2
  rw [hstep2]
  rw [hdlcDeframe_frame_step m (HDLC.escape f2) [] (escape_no_flag f2)]
  rw [decode_escape]
  rw [hdlcDeframe_openFrame m [] (by simp)]
  rw [if_pos h2, if_pos h1]

/-- Claim C2: feeding `Encode(f1) + Encode(f2)` to the deframing loop in any
chunking (one chunk, byte-by-byte, or any other split) delivers exactly
`[f1, f2]` to `process_incoming`, in order, when both decoded frames are
longer than the minimum header size `m`; and a frame whose decoded length is
at most `m` is dropped: it is never delivered. -/
theorem c2_deframer_delivers_frames_in_order (m : Nat)
    (f1 f2 g : List Nat) (cs csg : List (List Nat))
    (h1 : f1.length > m) (h2 : f2.length > m) (hg : g.length ≤ m)
    (hcs : cs.flatten = hdlcEncode f1 ++ hdlcEncode f2)
    (hcsg : csg.flatten = hdlcEncode g) :
    (feedChunks m [] cs).2 = [f1, f2] ∧ (feedChunks m [] csg).2 = [] := by
  have hq : hdlcDeframe m [] = ([], []) := hdlcDeframe_no_flag m [] (by simp)
  constructor
  · rw [feedChunks_flatten m cs [] hq, hcs]
    rw [List.nil_append]
    rw [hdlcDeframe_encode_pair m f1 f2 h1 h2]
  · rw [feedChunks_flatten m csg [] hq, hcsg]
    rw [List.nil_append]
    rw [hdlcDeframe_encode m g, if_neg (by omega)]

theorem c2_deframer_delivers_witness :
    (feedChunks 0 [] [hdlcEncode [1] ++ hdlcEncode [2]]).2 = [[1], [2]] ∧
    (feedChunks 0 [] [hdlcEncode []]).2 = [] :=
  c2_deframer_delivers_frames_in_order 0 [1] [2] [] [hdlcEncode [1] ++ hdlcEncode [2]]
    [hdlcEncode []] (by decide) (by decide) (by decide) (by simp) (by simp)

/-- Claim C3: after extracting a frame the buffer is cut to start at the
closing delimiter (which is retained as the opening delimiter of the next
frame), and two adjacent delimiters produce a zero-length frame that is
decoded as the empty frame, dropped by the minimum-size filter, and never
delivered. -/
theorem c3_second_delimiter_retained (m : Nat) (f : List Nat)
    (h : f.length > m) :
    hdlcDeframe m (hdlcEncode f) = ([HDLC.FLAG], [f]) ∧
    hdlcDeframe m (HDLC.FLAG :: (HDLC.FLAG :: (HDLC.escape f ++ [HDLC.FLAG])))
      = ([HDLC.FLAG], [f]) := by
  constructor
  · rw [hdlcDeframe_encode m f, if_pos h]
  · have hstep := hdlcDeframe_frame_step m []
      (HDLC.escape f ++ HDLC.FLAG :: []) (by simp)
    simp only [List.nil_append] at hstep
    rw [show hdlcDecode [] = [] from rfl] at hstep
    simp only [List.length_nil] at hstep
    rw [if_neg (by omega)] at hstep
    rw [show (HDLC.escape f ++ [HDLC.FLAG] : List Nat)
        = HDLC.escape f ++ HDLC.FLAG :: [] from rfl]
    rw [hstep]
    rw [hdlcDeframe_frame_step m (HDLC.escape f) [] (escape_no_flag f)]
    rw [decode_escape]
    rw [hdlcDeframe_openFrame m [] (by simp)]
    rw [if_pos h]

theorem c3_second_delimiter_witness :
    hdlcDeframe 0 (hdlcEncode [9]) = ([HDLC.FLAG], [[9]]) ∧
    hdlcDeframe 0 (HDLC.FLAG :: (HDLC.FLAG :: (HDLC.escape [9] ++ [HDLC.FLAG])))
      = ([HDLC.FLAG], [[9]]) :=
  c3_second_delimiter_retained 0 [9] (by decide)

/-- Claim C4: a delimiter followed by an escaped frame with no closing
delimiter delivers nothing and the bytes are retained; once the closing
delimiter arrives, the frame is delivered. -/
theorem c4_partial_frame_safety (m : Nat) (f : List Nat) (h : f.length > m) :
    feedChunks m [] [HDLC.FLAG :: HDLC.escape f]
      = (HDLC.FLAG :: HDLC.escape f, []) ∧
    feedChunks m [] [HDLC.FLAG :: HDLC.escape f, [HDLC.FLAG]]
      = ([HDLC.FLAG], [f]) := by
  have hpart : hdlcDeframe m (HDLC.FLAG :: HDLC.escape f)
      = (HDLC.FLAG :: HDLC.escape f, []) :=
    hdlcDeframe_openFrame m (HDLC.escape f) (escape_no_flag f)
  constructor
  · simp [feedChunks, hpart]
  · simp only [feedChunks, List.nil_append, hpart]
    have hfull : hdlcDeframe m (HDLC.FLAG :: HDLC.escape f ++ [HDLC.FLAG])
        = ([HDLC.FLAG], [f]) := by
      rw [show (HDLC.FLAG :: HDLC.escape f ++ [HDLC.FLAG] : List Nat)
          = HDLC.FLAG :: (HDLC.escape f ++ HDLC.FLAG :: []) by simp]
      rw [hdlcDeframe_frame_step m (HDLC.escape f) [] (escape_no_flag f)]
      rw [decode_escape]
      rw [hdlcDeframe_openFrame m [] (by simp)]
      rw [if_pos h]
    rw [hfull]
    simp

theorem c4_partial_frame_witness :
    feedChunks 0 [] [HDLC.FLAG :: HDLC.escape [3, 4]]
      = (HDLC.FLAG :: HDLC.escape [3, 4], []) ∧
    feedChunks 0 [] [HDLC.FLAG :: HDLC.escape [3, 4], [HDLC.FLAG]]
      = ([HDLC.FLAG], [[3, 4]]) :=
  c4_partial_frame_safety 0 [3, 4] (by decide)

/-- The connection flags consulted by `read_loop` when `recv` returns zero
bytes. -/
structure ConnFlags where
  is_connected_to_shared_instance : Bool
  detached : Bool

/-- What the zero-length-read branch of `read_loop` does after marking the
connection offline: either signal `shared_connection_disappeared` and call
`reconnect`, or call `teardown(nowarning=True)`. -/
inductive ZeroReadOutcome where
  | sharedDisappearedReconnect
  | teardownNoWarn
deriving DecidableEq

/-- Result of one iteration of `read_loop`'s `while True` body. -/
structure ReadStepResult where
  online : Bool
  frame_buffer : List Nat
  delivered : List (List Nat)
  action : Option ZeroReadOutcome
deriving DecidableEq

/-- One iteration of `read_loop` (lines 200-230): on a non-empty `recv`
result the chunk is appended to the frame buffer and complete frames are
extracted; on a zero-length read the connection is marked offline and either
the reconnect path or the no-warning teardown path is taken. -/
def readLoopStep (m : Nat) (fl : ConnFlags) (online : Bool)
    (frame_buffer data_in : List Nat) : ReadStepResult :=
  if data_in.length > 0 then
    let r := hdlcDeframe m (frame_buffer ++ data_in)
    { online := online, frame_buffer := r.1, delivered := r.2, action := none }
  else
    { online := false, frame_buffer := frame_buffer, delivered := [],
      action := some (if fl.is_connected_to_shared_instance && !fl.detached
        then ZeroReadOutcome.sharedDisappearedReconnect
        else ZeroReadOutcome.teardownNoWarn) }

/-- Claim C5: on a zero-length read the connection sets `online` to false;
it signals `shared_connection_disappeared` and reconnects exactly when
`is_connected_to_shared_instance` is true and `detached` is false, and in
every other case it tears down with the no-warning flag (so it never
reconnects). -/
theorem c5_zero_read_dispatch (m : Nat) (fl : ConnFlags) (online : Bool)
    (buf : List Nat) :
    (readLoopStep m fl online buf []).online = false ∧
    (readLoopStep m fl online buf []).frame_buffer = buf ∧
    (readLoopStep m fl online buf []).delivered = [] ∧
    ((readLoopStep m fl online buf []).action
        = some ZeroReadOutcome.sharedDisappearedReconnect
      ↔ (fl.is_connected_to_shared_instance = true ∧ fl.detached = false)) ∧
    ((readLoopStep m fl online buf []).action
        = some ZeroReadOutcome.teardownNoWarn
      ↔ (fl.is_connected_to_shared_instance = false ∨ fl.detached = true)) := by
  obtain ⟨shared, det⟩ := fl
  cases shared <;> cases det <;> simp [readLoopStep]

/-- Lifecycle flags of one client connection, as mutated by `teardown`. -/
structure ConnLife where
  online : Bool
  IN : Bool
  OUT : Bool
  is_connected_to_shared_instance : Bool
  has_parent : Bool
deriving DecidableEq

/-- The registry state touched by `teardown`: `RNS.Transport.interfaces`,
`RNS.Transport.local_client_interfaces` (connections named by numeric ids),
the parent server's `clients` counter, and whether `RNS.exit()` was
reached.  Logging and the persistence hook carry no registry state and are
not modelled. -/
structure Registries where
  interfaces : List Nat
  local_client_interfaces : List Nat
  parent_clients : Int
  exited : Bool
deriving DecidableEq

/-- `LocalClientInterface.teardown` (lines 260-284) for connection `c`:
clear `online`/`OUT`/`IN`; remove `c` from `interfaces` if present; if
present in `local_client_interfaces`, remove it and, when the connection has
a parent, decrement the parent's `clients`; finally, an initiating
connection reaches `RNS.exit()`. -/
def teardown (c : Nat) (conn : ConnLife) (s : Registries) :
    ConnLife × Registries :=
  let conn2 := { conn with online := false, OUT := false, IN := false }
  let s1 := if c ∈ s.interfaces then
      { s with interfaces := s.interfaces.erase c } else s
  let s2 := if c ∈ s1.local_client_interfaces then
      { s1 with
        local_client_interfaces := s1.local_client_interfaces.erase c,
        parent_clients := if conn.has_parent then s1.parent_clients - 1
                          else s1.parent_clients }
    else s1
  let s3 := if conn.is_connected_to_shared_instance then
      { s2 with exited := true } else s2
  (conn2, s3)

/-- Claim C6: calling `teardown` twice removes the connection from both
registries exactly once (the first call performs exactly one `erase` per
registry), decrements the parent's client count exactly once and only if the
connection was in the local-clients registry and has a parent, and the
second call performs no further registry mutation. -/
theorem c6_teardown_idempotent (c : Nat) (conn : ConnLife) (s : Registries)
    (hi : s.interfaces.count c ≤ 1)
    (hl : s.local_client_interfaces.count c ≤ 1) :
    (teardown c conn s).2.interfaces = s.interfaces.erase c ∧
    (teardown c conn s).2.local_client_interfaces
      = s.local_client_interfaces.erase c ∧
    c ∉ (teardown c conn s).2.interfaces ∧
    c ∉ (teardown c conn s).2.local_client_interfaces ∧
    (teardown c conn s).2.parent_clients
      = s.parent_clients - (if c ∈ s.local_client_interfaces ∧ conn.has_parent
          then 1 else 0) ∧
    (teardown c (teardown c conn s).1 (teardown c conn s).2).2
      = (teardown c conn s).2 := by
  have hcount_i : (s.interfaces.erase c).count c = 0 := by
    rw [List.count_erase_self]
    omega
  have hcount_l : (s.local_client_interfaces.erase c).count c = 0 := by
    rw [List.count_erase_self]
    omega
  have hni : c ∉ s.interfaces.erase c := List.count_eq_zero.mp hcount_i
  have hnl : c ∉ s.local_client_interfaces.erase c :=
    List.count_eq_zero.mp hcount_l
  by_cases hmi : c ∈ s.interfaces <;>
    by_cases hml : c ∈ s.local_client_interfaces <;>
      by_cases hp : conn.has_parent <;>
        by_cases hsh : conn.is_connected_to_shared_instance <;>
          simp [teardown, hmi, hml, hp, hsh, hni, hnl, List.erase_of_not_mem]

theorem c6_teardown_idempotent_witness :
    (teardown 1 ⟨true, true, true, false, true⟩ ⟨[1, 2], [1], 5, false⟩).2.interfaces
      = ([1, 2] : List Nat).erase 1 ∧
    (teardown 1 ⟨true, true, true, false, true⟩ ⟨[1, 2], [1], 5, false⟩).2.local_client_interfaces
      = ([1] : List Nat).erase 1 ∧
    1 ∉ (teardown 1 ⟨true, true, true, false, true⟩ ⟨[1, 2], [1], 5, false⟩).2.interfaces ∧
    1 ∉ (teardown 1 ⟨true, true, true, false, true⟩ ⟨[1, 2], [1], 5, false⟩).2.local_client_interfaces ∧
    (teardown 1 ⟨true, true, true, false, true⟩ ⟨[1, 2], [1], 5, false⟩).2.parent_clients
      = 5 - (if (1 : Nat) ∈ ([1] : List Nat) ∧ (true : Bool) = true then 1 else 0) ∧
    (teardown 1
        (teardown 1 ⟨true, true, true, false, true⟩ ⟨[1, 2], [1], 5, false⟩).1
        (teardown 1 ⟨true, true, true, false, true⟩ ⟨[1, 2], [1], 5, false⟩).2).2
      = (teardown 1 ⟨true, true, true, false, true⟩ ⟨[1, 2], [1], 5, false⟩).2 := by
  have h := c6_teardown_idempotent 1 ⟨true, true, true, false, true⟩
    ⟨[1, 2], [1], 5, false⟩ (by decide) (by decide)
  simpa using h

/-- The transmit-side counters touched by `process_outgoing`. -/
structure TxState where
  online : Bool
  has_parent : Bool
  txb : Nat
  parent_txb : Nat
deriving DecidableEq

/-- `process_outgoing` (lines 164-189) on a successful send: a no-op when
offline; when online the frame is HDLC-encoded
(`bytes([FLAG]) + escape(data) + bytes([FLAG])`), written to the socket, and
the encoded length is added to `txb` and, when a parent interface exists, to
the parent's `txb`.  The bitrate-simulation sleep and the socket write do
not change counters; the exception path does not occur on a successful
send. -/
def process_outgoing (s : TxState) (data : List Nat) : TxState :=
  if s.online then
    let wire := hdlcEncode data
    { s with txb := s.txb + wire.length,
             parent_txb := if s.has_parent then s.parent_txb + wire.length
                           else s.parent_txb }
  else s

lemma process_outgoing_fold (fs : List (List Nat)) :
    ∀ s : TxState, s.online = true →
      (fs.foldl process_outgoing s).online = true ∧
      (fs.foldl process_outgoing s).has_parent = s.has_parent ∧
      (fs.foldl process_outgoing s).txb
        = s.txb + (fs.map (fun f => (hdlcEncode f).length)).sum ∧
      (fs.foldl process_outgoing s).parent_txb
        = s.parent_txb + (if s.has_parent
            then (fs.map (fun f => (hdlcEncode f).length)).sum else 0) := by
  induction fs with
  | nil =>
    intro s hs
    refine ⟨hs, rfl, by simp, ?_⟩
    by_cases hp : s.has_parent <;> simp [hp]
  | cons f fs ih =>
    intro s hs
    simp only [List.foldl_cons]
    have hone : (process_outgoing s f).online = true := by
      simp [process_outgoing, hs]
    obtain ⟨ho, hpp, ht, hpt⟩ := ih (process_outgoing s f) hone
    have hparent_eq : (process_outgoing s f).has_parent = s.has_parent := by
      simp [process_outgoing, hs]
    have htx : (process_outgoing s f).txb = s.txb + (hdlcEncode f).length := by
      simp [process_outgoing, hs]
    have hpx : (process_outgoing s f).parent_txb
        = if s.has_parent then s.parent_txb + (hdlcEncode f).length
          else s.parent_txb := by
      simp [process_outgoing, hs]
    refine ⟨ho, by rw [hpp, hparent_eq], ?_, ?_⟩
    · rw [ht, htx]
      simp [Nat.add_assoc]
    · rw [hpt, hpx, hparent_eq]
      by_cases hp : s.has_parent <;> simp [hp, Nat.add_assoc]

/-- Claim C7: after `N` successful sends on an online connection, `txb` has
increased by the sum of the encoded lengths (escaped length plus the two
delimiter bytes, per frame), and the parent's `txb` by the same total when a
parent exists. -/
theorem c7_tx_byte_accounting (s : TxState) (fs : List (List Nat))
    (h : s.online = true) :
    (fs.foldl process_outgoing s).txb
      = s.txb + (fs.map (fun f => (hdlcEncode f).length)).sum ∧
    (s.has_parent = true →
      (fs.foldl process_outgoing s).parent_txb
        = s.parent_txb + (fs.map (fun f => (hdlcEncode f).length)).sum) := by
  obtain ⟨_, _, ht, hpt⟩ := process_outgoing_fold fs s h
  exact ⟨ht, fun hp => by rw [hpt, hp]; simp⟩

theorem c7_tx_byte_accounting_witness :
    (([[1], [2, 3]] : List (List Nat)).foldl process_outgoing
        ⟨true, true, 0, 0⟩).txb
      = 0 + (([[1], [2, 3]] : List (List Nat)).map
          (fun f => (hdlcEncode f).length)).sum ∧
    (([[1], [2, 3]] : List (List Nat)).foldl process_outgoing
        ⟨true, true, 0, 0⟩).parent_txb
      = 0 + (([[1], [2, 3]] : List (List Nat)).map
          (fun f => (hdlcEncode f).length)).sum := by
  have h := c7_tx_byte_accounting ⟨true, true, 0, 0⟩ [[1], [2, 3]] rfl
  exact ⟨h.1, h.2 rfl⟩

lemma countP_ext_list (p q : Nat → Bool) :
    ∀ l : List Nat, (∀ x ∈ l, p x = q x) → l.countP p = l.countP q := by
  intro l
  induction l with
  | nil => intro _; simp
  | cons b rest ih =>
    intro h
    rw [List.countP_cons, List.countP_cons,
        ih (fun x hx => h x (by simp [hx])), h b (by simp)]

lemma countP_erase_add (p : Nat → Bool) :
    ∀ l : List Nat, l.Nodup → ∀ c, c ∈ l →
      (l.erase c).countP p + (if p c then 1 else 0) = l.countP p := by
  intro l
  induction l with
  | nil => intro _ c hc; simp at hc
  | cons b rest ih =>
    intro hnd c hc
    have hnd2 := List.nodup_cons.mp hnd
    by_cases hbc : b = c
    · subst hbc
      rw [List.erase_cons_head]
      simp [List.countP_cons]
    · have hcr : c ∈ rest := by
        rcases List.mem_cons.mp hc with h | h
        · exact absurd h.symm hbc
        · exact h
      rw [List.erase_cons_tail (by simp [hbc])]
      rw [List.countP_cons, List.countP_cons]
      have := ih hnd2.2 c hcr
      omega

lemma not_mem_erase_self_of_nodup (l : List Nat) (c : Nat) (h : l.Nodup) :
    c ∉ l.erase c := by
  by_cases hc : c ∈ l
  · have hle := List.nodup_iff_count_le_one.mp h c
    have : (l.erase c).count c = 0 := by
      rw [List.count_erase_self]
      omega
    exact List.count_eq_zero.mp this
  · rw [List.erase_of_not_mem hc]
    exact hc

/-- The shared state of one `LocalServerInterface` and the two global
registries, as touched by `incoming_connection` and by its spawned clients'
`teardown`.  Connections are named by numeric ids; `is_child c` models
`parent_interface` of `c` being set to this server. -/
structure HubState where
  interfaces : List Nat
  local_client_interfaces : List Nat
  is_child : Nat → Bool
  clients : Int

/-- The server's state right after `__init__`: no clients, empty
registries. -/
def hubInit : HubState := ⟨[], [], fun _ => false, 0⟩

/-- `LocalServerInterface.incoming_connection` (lines 335-350) spawning
child `c`: the spawned interface's `parent_interface` is set to this server,
it is appended to `RNS.Transport.interfaces` and
`RNS.Transport.local_client_interfaces`, and `clients` is incremented. -/
def incoming_connection (c : Nat) (s : HubState) : HubState :=
  { s with
    interfaces := s.interfaces ++ [c],
    local_client_interfaces := s.local_client_interfaces ++ [c],
    is_child := fun x => if x = c then true else s.is_child x,
    clients := s.clients + 1 }

/-- The registry part of `LocalClientInterface.teardown` (lines 265-271) for
connection `c`: remove from `interfaces` if present; if present in
`local_client_interfaces`, remove it and decrement the parent's `clients`
when `c` has a parent. -/
def hubTeardown (c : Nat) (s : HubState) : HubState :=
  let s1 := if c ∈ s.interfaces then
      { s with interfaces := s.interfaces.erase c } else s
  if c ∈ s1.local_client_interfaces then
    { s1 with
      local_client_interfaces := s1.local_client_interfaces.erase c,
      clients := if s1.is_child c then s1.clients - 1 else s1.clients }
  else s1

/-- States reachable from the freshly initialised server by accepting fresh
connections and tearing connections down, in any order. -/
inductive HubReach : HubState → Prop where
  | init : HubReach hubInit
  | accept (s : HubState) (c : Nat) (hc : s.is_child c = false)
      (hi : c ∉ s.interfaces) (hl : c ∉ s.local_client_interfaces)
      (h : HubReach s) : HubReach (incoming_connection c s)
  | teardown (s : HubState) (c : Nat) (h : HubReach s) :
      HubReach (hubTeardown c s)

/-- The inductive invariant: the client count matches the number of
registered children, registries are duplicate-free, and a child is in the
global registry iff it is in the local-clients registry. -/
def HubInv (s : HubState) : Prop :=
  s.clients = (s.interfaces.countP (fun x => s.is_child x) : Int) ∧
  s.interfaces.Nodup ∧ s.local_client_interfaces.Nodup ∧
  ∀ x, s.is_child x = true →
    (x ∈ s.interfaces ↔ x ∈ s.local_client_interfaces)

lemma hubInv_init : HubInv hubInit := by
  refine ⟨by simp [hubInit], by simp [hubInit], by simp [hubInit], ?_⟩
  intro x hx
  simp [hubInit] at hx

lemma hubInv_accept (s : HubState) (c : Nat) (hc : s.is_child c = false)
    (hi : c ∉ s.interfaces) (hl : c ∉ s.local_client_interfaces)
    (h : HubInv s) : HubInv (incoming_connection c s) := by
  obtain ⟨h1, h2, h3, h4⟩ := h
  refine ⟨?_, ?_, ?_, ?_⟩
  · show s.clients + 1
      = (((s.interfaces ++ [c]).countP
          (fun x => if x = c then true else s.is_child x) : Nat) : Int)
    rw [List.countP_append]
    have hsame : s.interfaces.countP (fun x => if x = c then true else s.is_child x)
        = s.interfaces.countP (fun x => s.is_child x) := by
      refine countP_ext_list _ _ s.interfaces (fun x hx => ?_)
      have hxc : x ≠ c := fun hxc => hi (hxc ▸ hx)
      simp [hxc]
    rw [hsame]
    have hone : ([c].countP (fun x => if x = c then true else s.is_child x)) = 1 := by
      simp [List.countP_cons]
    rw [hone, h1]
    push_cast
    ring
  · simp [incoming_connection, List.nodup_append, h2, hi]
  · simp [incoming_connection, List.nodup_append, h3, hl]
  · intro x hx
    show x ∈ s.interfaces ++ [c] ↔ x ∈ s.local_client_interfaces ++ [c]
    by_cases hxc : x = c
    · subst hxc
      simp
    · have hx2 : s.is_child x = true := by
        have hx3 : (if x = c then true else s.is_child x) = true := hx
        simpa [hxc] using hx3
      simp [List.mem_append, hxc, h4 x hx2]

lemma hubInv_teardown (s : HubState) (c : Nat) (h : HubInv s) :
    HubInv (hubTeardown c s) := by
  obtain ⟨h1, h2, h3, h4⟩ := h
  have hxc_of : ∀ x, s.is_child x = true → s.is_child c = false → x ≠ c := by
    intro x hx hcf hxe
    rw [hxe, hcf] at hx
    exact absurd hx (by simp)
  unfold hubTeardown
  by_cases hchild : s.is_child c = true
  · have hiff := h4 c hchild
    by_cases hmi : c ∈ s.interfaces
    · have hml : c ∈ s.local_client_interfaces := hiff.mp hmi
      simp only [hmi, if_true, hml, if_true, hchild]
      refine ⟨?_, h2.erase c, h3.erase c, ?_⟩
      · show s.clients - 1
          = (((s.interfaces.erase c).countP (fun x => s.is_child x) : Nat) : Int)
        have hadd := countP_erase_add (fun x => s.is_child x) s.interfaces h2 c hmi
        simp [hchild] at hadd
        omega
      · intro x hx
        show x ∈ s.interfaces.erase c ↔ x ∈ s.local_client_interfaces.erase c
        by_cases hxc : x = c
        · subst hxc
          constructor
          · intro hmem
            exact absurd hmem (not_mem_erase_self_of_nodup _ _ h2)
          · intro hmem
            exact absurd hmem (not_mem_erase_self_of_nodup _ _ h3)
        · rw [List.mem_erase_of_ne hxc, List.mem_erase_of_ne hxc]
          exact h4 x hx
    · have hml : c ∉ s.local_client_interfaces := fun hm => hmi (hiff.mpr hm)
      simp only [hmi, if_false, hml, if_false]
      exact ⟨h1, h2, h3, h4⟩
  · have hch : s.is_child c = false := by
      revert hchild
      cases s.is_child c <;> simp
    have hcount : s.interfaces.countP (fun x => s.is_child x)
        = (s.interfaces.erase c).countP (fun x => s.is_child x) ∨
        c ∉ s.interfaces := by
      by_cases hmi : c ∈ s.interfaces
      · left
        have hadd := countP_erase_add (fun x => s.is_child x) s.interfaces h2 c hmi
        simp [hch] at hadd
        omega
      · right
        exact hmi
    by_cases hmi : c ∈ s.interfaces <;> by_cases hml : c ∈ s.local_client_interfaces
    · simp only [hmi, if_true, hml, if_true]
      refine ⟨?_, h2.erase c, h3.erase c, ?_⟩
      · show (if s.is_child c = true then s.clients - 1 else s.clients)
          = (((s.interfaces.erase c).countP (fun x => s.is_child x) : Nat) : Int)
        rw [if_neg (by simp [hch])]
        rcases hcount with hc2 | hc2
        · rw [h1, hc2]
        · exact absurd hmi hc2
      · intro x hx
        show x ∈ s.interfaces.erase c ↔ x ∈ s.local_client_interfaces.erase c
        have hxc : x ≠ c := hxc_of x hx hch
        rw [List.mem_erase_of_ne hxc, List.mem_erase_of_ne hxc]
        exact h4 x hx
    · simp only [hmi, if_true, hml, if_false]
      refine ⟨?_, h2.erase c, h3, ?_⟩
      · show s.clients
          = (((s.interfaces.erase c).countP (fun x => s.is_child x) : Nat) : Int)
        rcases hcount with hc2 | hc2
        · rw [h1, hc2]
        · exact absurd hmi hc2
      · intro x hx
        show x ∈ s.interfaces.erase c ↔ x ∈ s.local_client_interfaces
        have hxc : x ≠ c := hxc_of x hx hch
        rw [List.mem_erase_of_ne hxc]
        exact h4 x hx
    · simp only [hmi, if_false, hml, if_true]
      refine ⟨?_, h2, h3.erase c, ?_⟩
      · show (if s.is_child c = true then s.clients - 1 else s.clients)
          = ((s.interfaces.countP (fun x => s.is_child x) : Nat) : Int)
        rw [if_neg (by simp [hch])]
        exact h1
      · intro x hx
        show x ∈ s.interfaces ↔ x ∈ s.local_client_interfaces.erase c
        have hxc : x ≠ c := hxc_of x hx hch
        rw [List.mem_erase_of_ne hxc]
        exact h4 x hx
    · simp only [hmi, if_false, hml, if_false]
      exact ⟨h1, h2, h3, h4⟩

/-- Claim C8: in every state reachable by a sequence of
`incoming_connection` and `teardown` operations, the server's `clients`
counter equals the number of its children currently present in the global
interface registry. -/
theorem c8_clients_eq_registered_children (s : HubState) (h : HubReach s) :
    s.clients = ((s.interfaces.filter (fun x => s.is_child x)).length : Int) := by
  have hinv : HubInv s := by
    induction h with
    | init => exact hubInv_init
    | accept s c hc hi hl h ih => exact hubInv_accept s c hc hi hl ih
    | teardown s c h ih => exact hubInv_teardown s c ih
  rw [hinv.1, List.countP_eq_length_filter]

theorem c8_clients_eq_registered_witness :
    (hubTeardown 7 (incoming_connection 7 hubInit)).clients
      = (((hubTeardown 7 (incoming_connection 7 hubInit)).interfaces.filter
          (fun x => (hubTeardown 7 (incoming_connection 7 hubInit)).is_child x)).length
        : Int) :=
  c8_clients_eq_registered_children _
    (HubReach.teardown _ 7
      (HubReach.accept hubInit 7 rfl (by simp [hubInit]) (by simp [hubInit])
        HubReach.init))

/-- `LocalClientInterface.__str__` (lines 287-288):
`"LocalInterface[" + str(self.target_port) + "]"`; the argument is the
result of Python `str` on the target port. -/
def LocalClientInterface.str (target_port : String) : String :=
  "LocalInterface[" ++ target_port ++ "]"

/-- `LocalServerInterface.__str__` (lines 361-362):
`"Shared Instance[" + str(self.bind_port) + "]"`; the argument is the
result of Python `str` on the bind port. -/
def LocalServerInterface.str (bind_port : String) : String :=
  "Shared Instance[" ++ bind_port ++ "]"

/-- Claim C9, as stated, is false: at bind port `4048` the shared-instance
server renders as `"Shared Instance[4048]"` (with a space), not
`"SharedInstance[4048]"`. -/
theorem c9_server_str_counterexample :
    ¬ (LocalServerInterface.str "4048" = "SharedInstance[" ++ "4048" ++ "]") := by
  decide

/-- Claim C9 (amended): the string representation of a client connection is
exactly `"LocalInterface["` followed by its target port and `"]"`, and the
string representation of the shared-instance server is exactly
`"Shared Instance["` (with a space) followed by its bind port and `"]"`. -/
theorem c9_str_representation_amended (p : String) :
    LocalClientInterface.str p = "LocalInterface[" ++ p ++ "]" ∧
    LocalServerInterface.str p = "Shared Instance[" ++ p ++ "]" :=
  ⟨rfl, rfl⟩

/-- The receive-side counters touched by `process_incoming`. -/
structure RxState where
  has_parent : Bool
  rxb : Nat
  parent_rxb : Nat
deriving DecidableEq

/-- The observable effects of `process_incoming`, in order of occurrence. -/
inductive RxEvent where
  | countersUpdated (n : Nat)
  | inboundCalled (frame : List Nat)
  | errorLogged
deriving DecidableEq

/-- `process_incoming` (lines 153-162): adds the frame length to `rxb` (and
to the parent's `rxb` when a parent interface is set), then calls
`owner.inbound(data, self)` inside `try`; an exception raised by the
callback is caught and logged and does not propagate.  The callback's
outcome is supplied as `inboundResult`; the returned event list records the
order of effects. -/
def process_incoming (s : RxState) (data : List Nat)
    (inboundResult : Except String Unit) : RxState × List RxEvent :=
  let s2 := { s with
    rxb := s.rxb + data.length,
    parent_rxb := if s.has_parent then s.parent_rxb + data.length
                  else s.parent_rxb }
  match inboundResult with
  | Except.ok _ =>
    (s2, [RxEvent.countersUpdated data.length, RxEvent.inboundCalled data])
  | Except.error _ =>
    (s2, [RxEvent.countersUpdated data.length, RxEvent.inboundCalled data,
          RxEvent.errorLogged])

/-- Claim C10: `process_incoming` increments `rxb` (and the parent's `rxb`
when a parent is set) by the frame length before invoking the owner's
inbound callback; an exception from the callback is caught and logged inside
`process_incoming` (the function still returns normally) and the counter
increments are retained. -/
theorem c10_rx_accounting_and_catch (s : RxState) (data : List Nat)
    (r : Except String Unit) :
    (process_incoming s data r).1.rxb = s.rxb + data.length ∧
    (process_incoming s data r).1.parent_rxb
      = (if s.has_parent then s.parent_rxb + data.length else s.parent_rxb) ∧
    (process_incoming s data r).2.take 2
      = [RxEvent.countersUpdated data.length, RxEvent.inboundCalled data] ∧
    (∀ e, r = Except.error e →
      (process_incoming s data r).2
        = [RxEvent.countersUpdated data.length, RxEvent.inboundCalled data,
           RxEvent.errorLogged]) := by
  cases r <;> simp [process_incoming]

theorem c10_rx_accounting_witness :
    (process_incoming ⟨true, 0, 0⟩ [1, 2, 3] (Except.error "boom")).1.rxb
      = 0 + ([1, 2, 3] : List Nat).length ∧
    (process_incoming ⟨true, 0, 0⟩ [1, 2, 3] (Except.error "boom")).2
      = [RxEvent.countersUpdated ([1, 2, 3] : List Nat).length,
         RxEvent.inboundCalled [1, 2, 3], RxEvent.errorLogged] :=
  ⟨(c10_rx_accounting_and_catch ⟨true, 0, 0⟩ [1, 2, 3] (Except.error "boom")).1,
   (c10_rx_accounting_and_catch ⟨true, 0, 0⟩ [1, 2, 3]
      (Except.error "boom")).2.2.2 "boom" rfl⟩
